import Mathlib

/-!
Shallow embedding of the survey-analysis core of `src/server.js`
(the function `analyzeSurveyData` and the JavaScript value and number
primitives it relies on: `parseFloat`, the global `isFinite` with its
implicit `Number(_)` coercion, `String(_).trim()`, truthiness).
JavaScript numbers are modelled as exact rationals extended with the two
signed infinities and NaN.
-/

/-- Model of a JavaScript number: a finite value (idealised as an exact
rational), a signed infinity, or NaN. -/
inductive JNum : Type
  | fin (q : ℚ)
  | inf (pos : Bool)
  | nan
  deriving DecidableEq, Repr

/-- `isNaN(x)` for an already-converted number. -/
def JNum.isNaN : JNum → Bool
  | .nan => true
  | _ => false

/-- Whether a converted number is finite. -/
def JNum.isFinite : JNum → Bool
  | .fin _ => true
  | _ => false

/-- The whitespace characters skipped by the JavaScript numeric conversions
and by `String.prototype.trim`. -/
def jsWhitespaceChar (c : Char) : Bool :=
  c = ' ' || c = '\t' || c = '\n' || c = '\r' || c = '\x0b' || c = '\x0c'

/-- Accumulate a run of leading decimal digits: returns the value read so
far, the number of digits consumed, and the remaining characters. -/
def takeDigits : List Char → ℕ → ℕ → ℕ × ℕ × List Char
  | [], acc, n => (acc, n, [])
  | c :: cs, acc, n =>
    if c.isDigit then takeDigits cs (10 * acc + (c.toNat - 48)) (n + 1)
    else (acc, n, c :: cs)

/-- If the pattern (first argument) is a leading run of the input, return the
characters after it. -/
def matchChars : List Char → List Char → Option (List Char)
  | [], l => some l
  | _, [] => none
  | p :: ps, c :: cs => if c = p then matchChars ps cs else none

/-- The keyword recognised by the JavaScript numeric grammars. -/
def infinityChars : List Char :=
  ['I', 'n', 'f', 'i', 'n', 'i', 't', 'y']

/-- Scale a mantissa by a signed power of ten. -/
def applyExp (mant : ℚ) (exp : ℤ) : ℚ :=
  if 0 ≤ exp then mant * (10 : ℚ) ^ exp.toNat
  else mant / (10 : ℚ) ^ (-exp).toNat

/-- Parse a signed decimal numeral (optional fraction and exponent, or the
`Infinity` keyword) from the front of the input: returns the parsed value
(NaN when no digits could be read) and the characters left over after the
longest valid numeral, as ECMAScript's `parseFloat` grammar does (an
incomplete exponent such as in `"12e"` is backtracked). -/
def readDecimal (l : List Char) : JNum × List Char :=
  let sr : Bool × List Char :=
    match l with
    | '-' :: r => (true, r)
    | '+' :: r => (false, r)
    | r => (false, r)
  let neg := sr.1
  match matchChars infinityChars sr.2 with
  | some rest => (JNum.inf !neg, rest)
  | none =>
    let (ip, ni, r1) := takeDigits sr.2 0 0
    let (fp, nf, r2) : ℕ × ℕ × List Char :=
      match r1 with
      | '.' :: r => takeDigits r 0 0
      | r => (0, 0, r)
    if ni + nf = 0 then (JNum.nan, l)
    else
      let er : ℤ × List Char :=
        match r2 with
        | c :: cs =>
          if c = 'e' || c = 'E' then
            match cs with
            | '-' :: r3 =>
              let t := takeDigits r3 0 0
              if t.2.1 = 0 then (0, r2) else (-(t.1 : ℤ), t.2.2)
            | '+' :: r3 =>
              let t := takeDigits r3 0 0
              if t.2.1 = 0 then (0, r2) else ((t.1 : ℤ), t.2.2)
            | r3 =>
              let t := takeDigits r3 0 0
              if t.2.1 = 0 then (0, r2) else ((t.1 : ℤ), t.2.2)
          else (0, r2)
        | [] => (0, [])
      let v := applyExp ((ip : ℚ) + (fp : ℚ) / (10 : ℚ) ^ nf) er.1
      (JNum.fin (if neg then -v else v), er.2)

/-- JavaScript `parseFloat` on a character sequence: skip leading whitespace,
then read the longest valid decimal numeral. -/
def parseFloatChars (l : List Char) : JNum :=
  (readDecimal (l.dropWhile jsWhitespaceChar)).1

/-- Trim JavaScript whitespace from both ends of a character sequence. -/
def jsTrimChars (l : List Char) : List Char :=
  ((l.dropWhile jsWhitespaceChar).reverse.dropWhile jsWhitespaceChar).reverse

/-- Read a run of digits in base `b` (with hexadecimal letters): value, digit
count, and remaining characters. -/
def takeBaseDigits (b : ℕ) : List Char → ℕ → ℕ → ℕ × ℕ × List Char
  | [], acc, n => (acc, n, [])
  | c :: cs, acc, n =>
    let d : ℕ :=
      if '0' ≤ c ∧ c ≤ '9' then c.toNat - 48
      else if 'a' ≤ c ∧ c ≤ 'f' then c.toNat - 87
      else if 'A' ≤ c ∧ c ≤ 'F' then c.toNat - 55
      else 99
    if d < b then takeBaseDigits b cs (b * acc + d) (n + 1)
    else (acc, n, c :: cs)

/-- A complete unsigned radix literal in base `b`, or NaN. -/
def toRadix (b : ℕ) (l : List Char) : JNum :=
  let t := takeBaseDigits b l 0 0
  if t.2.1 = 0 then JNum.nan
  else
    match t.2.2 with
    | [] => JNum.fin (t.1 : ℚ)
    | _ :: _ => JNum.nan

/-- Full-string decimal conversion: the numeral must consume every
character, otherwise the result is NaN. -/
def toNumberFull (l : List Char) : JNum :=
  match readDecimal l with
  | (v, []) => v
  | _ => JNum.nan

/-- JavaScript `Number(_)` (the `ToNumber` coercion) on a character
sequence: trim whitespace, an empty remainder means `0`, and otherwise the
whole remaining text must be a signed decimal numeral, `Infinity`, or an
unsigned `0x`/`0o`/`0b` radix literal. -/
def toNumberChars (l : List Char) : JNum :=
  let t := ((l.dropWhile jsWhitespaceChar).reverse.dropWhile jsWhitespaceChar).reverse
  match t with
  | [] => JNum.fin 0
  | '0' :: b :: rest =>
    if b = 'x' || b = 'X' then toRadix 16 rest
    else if b = 'o' || b = 'O' then toRadix 8 rest
    else if b = 'b' || b = 'B' then toRadix 2 rest
    else toNumberFull t
  | _ => toNumberFull t

/-- A raw cell value as delivered by the row parsers: a string, a (finite)
number, `null`, or `undefined` (the latter also models an absent key). -/
inductive JSValue : Type
  | str (s : String)
  | num (q : ℚ)
  | null
  | undef
  deriving DecidableEq, Repr

/-- `parseFloat(value)`: the argument is coerced to its string form and the
longest leading decimal numeral is parsed. A finite number's string form
round-trips to the number itself; `null` and `undefined` stringify to
non-numeric text and give NaN. -/
def parseFloatV : JSValue → JNum
  | .str s => parseFloatChars s.data
  | .num q => JNum.fin q
  | .null => JNum.nan
  | .undef => JNum.nan

/-- `Number(value)`, the coercion applied by the global `isFinite`:
full-string numeric conversion; `null` coerces to `0` and `undefined` to
NaN. -/
def toNumberV : JSValue → JNum
  | .str s => toNumberChars s.data
  | .num q => JNum.fin q
  | .null => JNum.fin 0
  | .undef => JNum.nan

/-- JavaScript truthiness of a cell value (`value && …`): the empty string,
the number `0`, `null`, and `undefined` are falsy. -/
def jsTruthy : JSValue → Bool
  | .str s => !(s == "")
  | .num q => !(q == 0)
  | .null => false
  | .undef => false

/-- Whether `String(value).trim().length > 0`: the string form of a finite
number, of `null` (`"null"`), or of `undefined` (`"undefined"`) is never
empty or whitespace-only, so only actual strings can fail this test. -/
def trimmedNonEmpty : JSValue → Bool
  | .str s => 0 < (jsTrimChars s.data).length
  | .num _ => true
  | .null => true
  | .undef => true

/-- A row of the dataset: an ordered association of column names to values
(modelling a JavaScript object, whose keys are ordered). -/
abbrev Row : Type := List (String × JSValue)

/-- Property access `row[key]`: the value stored under `key`, or
`undefined` when the key is absent. -/
def getVal (row : Row) (key : String) : JSValue :=
  (List.lookup key row).getD JSValue.undef

/-- `Object.keys(data[0])`: the first row's column names in their original
order (the code only evaluates this for non-empty data; for an empty
dataset this model yields `[]`). -/
def allKeysOf (data : List Row) : List String :=
  (data.headD []).map Prod.fst

/-- The classifier's presence test
`value !== undefined && value !== null && value !== ''`
(a number is never strictly equal to the empty string). -/
def isPresent : JSValue → Bool
  | .undef => false
  | .null => false
  | .str s => !(s == "")
  | .num _ => true

/-- The classifier's numeric test
`!isNaN(parseFloat(value)) && isFinite(value)`. Note that the second
conjunct is the global `isFinite`, which coerces the whole value with
`Number(_)` rather than testing the prefix-parsed value. -/
def numericLike (value : JSValue) : Bool :=
  !(parseFloatV value).isNaN && (toNumberV value).isFinite

/-- The classification sample window: the first `Math.min(data.length, 100)`
rows. -/
def sampleWindow (data : List Row) : List Row :=
  data.take (min data.length 100)

/-- One iteration of the classifier's counting loop over the accumulator
`(totalValid, numericCount)`. -/
def classifyStep (key : String) (acc : ℕ × ℕ) (row : Row) : ℕ × ℕ :=
  let value := getVal row key
  if isPresent value then
    (acc.1 + 1, if numericLike value then acc.2 + 1 else acc.2)
  else acc

/-- The classifier's `(totalValid, numericCount)` for one column. -/
def classifyCounts (data : List Row) (key : String) : ℕ × ℕ :=
  (sampleWindow data).foldl (classifyStep key) (0, 0)

/-- The classification rule
`totalValid > 0 && (numericCount / totalValid) >= 0.5`, the quotient taken
over the rationals (idealising JavaScript float division, which is exact at
this scale). -/
def isNumericColumn (data : List Row) (key : String) : Bool :=
  decide (0 < (classifyCounts data key).1 ∧
    (1 : ℚ) / 2 ≤
      ((classifyCounts data key).2 : ℚ) / ((classifyCounts data key).1 : ℚ))

/-- `numericColumns`: the columns pushed by the classifier, in first-row key
order. -/
def numericColumnsOf (data : List Row) : List String :=
  (allKeysOf data).filter (isNumericColumn data)

/-- `textColumns = allKeys.filter(key => !numericColumns.includes(key))`. -/
def textColumnsOf (data : List Row) : List String :=
  (allKeysOf data).filter (fun key => !(numericColumnsOf data).contains key)

/-- JavaScript addition of two numbers (opposite infinities give NaN). -/
def jnumAdd : JNum → JNum → JNum
  | .nan, _ => .nan
  | _, .nan => .nan
  | .fin a, .fin b => .fin (a + b)
  | .fin _, .inf p => .inf p
  | .inf p, .fin _ => .inf p
  | .inf p, .inf q => if p = q then .inf p else .nan

/-- JavaScript division of a number by a nonnegative integer count (the code
divides only by positive counts and by `2`). -/
def jnumDivNat : JNum → ℕ → JNum
  | .nan, _ => .nan
  | .inf p, _ => .inf p
  | .fin q, n =>
    if n = 0 then (if q = 0 then .nan else if 0 < q then .inf true else .inf false)
    else .fin (q / (n : ℚ))

/-- The numeric order used by `Math.min`/`Math.max` and by the sort
comparator `(a, b) => a - b`. NaN, which never occurs in the filtered value
lists, is placed below everything to keep the relation total. -/
def jnumLe : JNum → JNum → Bool
  | .nan, _ => true
  | _, .nan => false
  | .inf p, .inf q => !p || q
  | .inf p, .fin _ => !p
  | .fin _, .inf q => q
  | .fin a, .fin b => decide (a ≤ b)

/-- `Math.min` of two numbers (NaN-propagating). -/
def jnumMin (a b : JNum) : JNum :=
  if a.isNaN || b.isNaN then .nan else if jnumLe a b then a else b

/-- `Math.max` of two numbers (NaN-propagating). -/
def jnumMax (a b : JNum) : JNum :=
  if a.isNaN || b.isNaN then .nan else if jnumLe a b then b else a

/-- The statistics engine's value list for one column:
`data.map(row => parseFloat(row[column])).filter(val => !isNaN(val))`. -/
def colValues (data : List Row) (column : String) : List JNum :=
  (data.map (fun row => parseFloatV (getVal row column))).filter
    (fun val => !val.isNaN)

/-- `[...values].sort((a, b) => a - b)`: an ascending sort of the value
list, modelled with a stable merge sort (which agrees with any conforming
JavaScript sort on the sortedness and permutation properties used here). -/
def sortJNum (values : List JNum) : List JNum :=
  values.mergeSort jnumLe

/-- The per-column statistics record. -/
structure NumericStats where
  count : ℕ
  sum : JNum
  average : JNum
  min : JNum
  max : JNum
  median : JNum
  deriving DecidableEq, Repr

/-- The statistics computed for a value list (the code reaches this only
when the list is non-empty): `reduce((acc, val) => acc + val, 0)` for the
sum, `Math.min(...values)` / `Math.max(...values)` (folds whose starting
points `±Infinity` are the values of the empty spreads), and the
sort-and-middle median. -/
def mkStats (values : List JNum) : NumericStats :=
  let sum := values.foldl jnumAdd (JNum.fin 0)
  let average := jnumDivNat sum values.length
  let mn := values.foldl jnumMin (JNum.inf true)
  let mx := values.foldl jnumMax (JNum.inf false)
  let sorted := sortJNum values
  let midIndex := sorted.length / 2
  let median :=
    if sorted.length % 2 = 0 then
      jnumDivNat
        (jnumAdd (sorted.getD (midIndex - 1) JNum.nan) (sorted.getD midIndex JNum.nan)) 2
    else sorted.getD midIndex JNum.nan
  ⟨values.length, sum, average, mn, mx, median⟩

/-- `quantitativeAnalysis`: the statistics per numeric column, where a
column whose value list is empty is silently omitted
(`if (values.length > 0)`). -/
def quantitativeOf (data : List Row) : List (String × NumericStats) :=
  (numericColumnsOf data).filterMap (fun column =>
    if 0 < (colValues data column).length then
      some (column, mkStats (colValues data column))
    else none)

/-- The sampler's filter
`comment => comment && String(comment).trim().length > 0`. -/
def survivesQualFilter (comment : JSValue) : Bool :=
  jsTruthy comment && trimmedNonEmpty comment

/-- The surviving values of a column, uncapped, in row order. -/
def qualSurvivors (data : List Row) (column : String) : List JSValue :=
  (data.map (fun row => getVal row column)).filter survivesQualFilter

/-- The qualitative summary of one text column. -/
structure QualSummary where
  totalEntries : ℕ
  nonEmptyEntries : ℕ
  sampleComments : List JSValue
  deriving DecidableEq, Repr

/-- The summary built for one text column: the working set is the first 50
survivors (`.slice(0, 50)`), of which the first 10 are displayed. -/
def mkQual (data : List Row) (column : String) : QualSummary :=
  ⟨data.length, ((qualSurvivors data column).take 50).length,
    ((qualSurvivors data column).take 50).take 10⟩

/-- `qualitativeAnalysis`: one summary per text column. -/
def qualitativeOf (data : List Row) : List (String × QualSummary) :=
  (textColumnsOf data).map (fun column => (column, mkQual data column))

/-- The `metadata` field of a non-empty analysis. -/
structure Metadata where
  totalRows : ℕ
  totalColumns : ℕ
  numericColumns : List String
  textColumns : List String
  deriving DecidableEq, Repr

/-- The assembled metadata. -/
def metadataOf (data : List Row) : Metadata :=
  ⟨data.length, (allKeysOf data).length, numericColumnsOf data, textColumnsOf data⟩

/-- The value returned by `analyzeSurveyData`. -/
inductive AnalysisResult : Type
  | err (message : String)
  | ok (quantitative : List (String × NumericStats))
      (qualitative : List (String × QualSummary))
      (metadata : Metadata)
  deriving DecidableEq, Repr

/-- `analyzeSurveyData(data)`: the empty-dataset guard followed by the three
per-column passes. -/
def analyzeSurveyData (data : List Row) : AnalysisResult :=
  if data.isEmpty then .err "No data to analyze"
  else .ok (quantitativeOf data) (qualitativeOf data) (metadataOf data)

/-- Specification form of `totalValid` for one column: the sampled values
that are present. -/
def specTotalValid (data : List Row) (key : String) : ℕ :=
  ((sampleWindow data).map (fun row => getVal row key)).countP isPresent

/-- Specification form of `numericCount` for one column: the sampled values
that are present and pass the classifier's numeric test. -/
def specNumericCount (data : List Row) (key : String) : ℕ :=
  ((sampleWindow data).map (fun row => getVal row key)).countP
    (fun v => isPresent v && numericLike v)

/-! ### Classifier lemmas -/

theorem foldl_classifyStep (key : String) (l : List Row) :
    ∀ acc : ℕ × ℕ,
      l.foldl (classifyStep key) acc =
        (acc.1 + (l.map (fun row => getVal row key)).countP isPresent,
         acc.2 + (l.map (fun row => getVal row key)).countP
           (fun v => isPresent v && numericLike v)) := by
  induction l with
  | nil => intro acc; simp
  | cons row t ih =>
    intro acc
    simp only [List.foldl_cons, List.map_cons, List.countP_cons, ih]
    unfold classifyStep
    by_cases hp : isPresent (getVal row key) <;>
      by_cases hn : numericLike (getVal row key) <;>
      simp [hp, hn] <;> omega

theorem classifyCounts_spec (data : List Row) (key : String) :
    classifyCounts data key = (specTotalValid data key, specNumericCount data key) := by
  unfold classifyCounts specTotalValid specNumericCount
  rw [foldl_classifyStep]
  simp

theorem ratio_ge_half_iff (nc tv : ℕ) (h : 0 < tv) :
    (1 : ℚ) / 2 ≤ (nc : ℚ) / (tv : ℚ) ↔ tv ≤ 2 * nc := by
  rw [div_le_div_iff₀ (by norm_num) (by exact_mod_cast h)]
  norm_cast
  omega

theorem isNumericColumn_iff (data : List Row) (key : String) :
    isNumericColumn data key = true ↔
      0 < (classifyCounts data key).1 ∧
        (classifyCounts data key).1 ≤ 2 * (classifyCounts data key).2 := by
  unfold isNumericColumn
  simp only [decide_eq_true_eq]
  constructor
  · rintro ⟨h1, h2⟩
    exact ⟨h1, (ratio_ge_half_iff _ _ h1).mp h2⟩
  · rintro ⟨h1, h2⟩
    exact ⟨h1, (ratio_ge_half_iff _ _ h1).mpr h2⟩

theorem mem_numericColumnsOf_iff (data : List Row) (key : String) :
    key ∈ numericColumnsOf data ↔
      key ∈ allKeysOf data ∧ 0 < (classifyCounts data key).1 ∧
        (classifyCounts data key).1 ≤ 2 * (classifyCounts data key).2 := by
  unfold numericColumnsOf
  rw [List.mem_filter, isNumericColumn_iff]

theorem mem_textColumnsOf_iff (data : List Row) (key : String) :
    key ∈ textColumnsOf data ↔
      key ∈ allKeysOf data ∧
        ¬(0 < (classifyCounts data key).1 ∧
          (classifyCounts data key).1 ≤ 2 * (classifyCounts data key).2) := by
  unfold textColumnsOf
  rw [List.mem_filter]
  have hc : (!(numericColumnsOf data).contains key) = true ↔
      ¬(key ∈ numericColumnsOf data) := by
    rw [Bool.not_eq_true']
    rw [← Bool.not_eq_true]
    exact not_congr List.elem_iff
  rw [hc, mem_numericColumnsOf_iff]
  constructor
  · rintro ⟨hk, hn⟩
    exact ⟨hk, fun hc => hn ⟨hk, hc⟩⟩
  · rintro ⟨hk, hn⟩
    exact ⟨hk, fun hc => hn hc.2⟩

/-! ### Lookup lemmas for the assembled result maps -/

theorem lookup_quant_aux (data : List Row) (column : String) :
    ∀ cols : List String, column ∈ cols → 0 < (colValues data column).length →
      List.lookup column (cols.filterMap (fun c =>
        if 0 < (colValues data c).length then some (c, mkStats (colValues data c))
        else none)) = some (mkStats (colValues data column)) := by
  intro cols
  induction cols with
  | nil => intro h; cases h
  | cons x t ih =>
    intro hmem hp
    by_cases hx : 0 < (colValues data x).length
    · rw [List.filterMap_cons_some (by rw [if_pos hx])]
      by_cases he : column = x
      · subst he
        simp [List.lookup]
      · rw [List.lookup]
        have : (column == x) = false := beq_eq_false_iff_ne.mpr he
        rw [this]
        exact ih (by rcases List.mem_cons.mp hmem with h | h; exact absurd h he; exact h) hp
    · rw [List.filterMap_cons_none (by rw [if_neg hx])]
      have he : column ≠ x := by
        intro h; rw [h] at hp; exact hx hp
      exact ih (by rcases List.mem_cons.mp hmem with h | h; exact absurd h he; exact h) hp

theorem lookup_quantitativeOf (data : List Row) (column : String)
    (hmem : column ∈ numericColumnsOf data) (hp : 0 < (colValues data column).length) :
    List.lookup column (quantitativeOf data) = some (mkStats (colValues data column)) := by
  unfold quantitativeOf
  exact lookup_quant_aux data column (numericColumnsOf data) hmem hp

theorem lookup_quant_aux_none (data : List Row) (column : String)
    (hz : ¬ 0 < (colValues data column).length) :
    ∀ cols : List String,
      List.lookup column (cols.filterMap (fun c =>
        if 0 < (colValues data c).length then some (c, mkStats (colValues data c))
        else none)) = none := by
  intro cols
  induction cols with
  | nil => rfl
  | cons x t ih =>
    by_cases hx : 0 < (colValues data x).length
    · rw [List.filterMap_cons_some (by rw [if_pos hx])]
      rw [List.lookup]
      have he : column ≠ x := by
        intro h; rw [h] at hz; exact hz hx
      have : (column == x) = false := beq_eq_false_iff_ne.mpr he
      rw [this]
      exact ih
    · rw [List.filterMap_cons_none (by rw [if_neg hx])]
      exact ih

theorem lookup_quant_some (data : List Row) (column : String) (s : NumericStats)
    (h : List.lookup column (quantitativeOf data) = some s) :
    s = mkStats (colValues data column) ∧ 0 < (colValues data column).length := by
  by_cases hp : 0 < (colValues data column).length
  · refine ⟨?_, hp⟩
    have hmem : column ∈ numericColumnsOf data := by
      by_contra hn
      unfold quantitativeOf at h
      have : List.lookup column ((numericColumnsOf data).filterMap (fun c =>
          if 0 < (colValues data c).length then some (c, mkStats (colValues data c))
          else none)) = none := by
        generalize (numericColumnsOf data) = cols at hn ⊢
        induction cols with
        | nil => rfl
        | cons x t ih =>
          have hx : column ≠ x := fun hc => hn (hc ▸ List.mem_cons_self x t)
          have ht : column ∉ t := fun hc => hn (List.mem_cons_of_mem x hc)
          by_cases hg : 0 < (colValues data x).length
          · rw [List.filterMap_cons_some (by rw [if_pos hg])]
            rw [List.lookup, beq_eq_false_iff_ne.mpr hx]
            exact ih ht
          · rw [List.filterMap_cons_none (by rw [if_neg hg])]
            exact ih ht
      rw [h] at this
      cases this
    have hsome := lookup_quantitativeOf data column hmem hp
    rw [h] at hsome
    exact (Option.some.injEq _ _).mp hsome
  · have := lookup_quant_aux_none data column hp (numericColumnsOf data)
    unfold quantitativeOf at h
    rw [h] at this
    cases this

theorem lookup_qualitativeOf (data : List Row) (column : String)
    (hmem : column ∈ textColumnsOf data) :
    List.lookup column (qualitativeOf data) = some (mkQual data column) := by
  unfold qualitativeOf
  generalize (textColumnsOf data) = cols at hmem
  induction cols with
  | nil => cases hmem
  | cons x t ih =>
    rw [List.map_cons, List.lookup]
    by_cases he : column = x
    · subst he
      simp
    · rw [beq_eq_false_iff_ne.mpr he]
      exact ih (by rcases List.mem_cons.mp hmem with h | h; exact absurd h he; exact h)

/-! ### Order lemmas for the numeric comparator -/

theorem jnumLe_refl (a : JNum) : jnumLe a a = true := by
  cases a with
  | fin q => simp [jnumLe]
  | inf p => cases p <;> rfl
  | nan => rfl

theorem jnumLe_trans : ∀ {a b c : JNum},
    jnumLe a b = true → jnumLe b c = true → jnumLe a c = true := by
  intro a b c h1 h2
  rcases a with qa | pa | _ <;> rcases b with qb | pb | _ <;> rcases c with qc | pc | _
  all_goals try cases pa
  all_goals try cases pb
  all_goals try cases pc
  all_goals try simp_all [jnumLe]
  all_goals linarith

theorem jnumLe_total (a b : JNum) : (jnumLe a b || jnumLe b a) = true := by
  rcases a with qa | pa | _ <;> rcases b with qb | pb | _
  all_goals try cases pa
  all_goals try cases pb
  all_goals try simp_all [jnumLe]
  all_goals exact le_total qa qb

theorem jnumLe_infPos {v : JNum} (hn : v.isNaN = false)
    (h : jnumLe (JNum.inf true) v = true) : v = JNum.inf true := by
  cases v <;> simp_all [jnumLe, JNum.isNaN]

theorem jnumLe_infNeg {v : JNum} (hn : v.isNaN = false)
    (h : jnumLe v (JNum.inf false) = true) : v = JNum.inf false := by
  cases v <;> simp_all [jnumLe, JNum.isNaN]

theorem jnumMin_cases (a b : JNum) (ha : a.isNaN = false) (hb : b.isNaN = false) :
    (jnumMin a b = a ∨ jnumMin a b = b) ∧
      jnumLe (jnumMin a b) a = true ∧ jnumLe (jnumMin a b) b = true ∧
      (jnumMin a b).isNaN = false := by
  unfold jnumMin
  rw [ha, hb]
  simp only [Bool.or_self, Bool.false_or, if_false]
  by_cases h : jnumLe a b = true
  · rw [if_pos h]
    exact ⟨Or.inl rfl, jnumLe_refl a, h, ha⟩
  · rw [if_neg h]
    have hba : jnumLe b a = true := by
      rcases Bool.or_eq_true_iff.mp (jnumLe_total a b) with h' | h'
      · exact absurd h' h
      · exact h'
    exact ⟨Or.inr rfl, hba, jnumLe_refl b, hb⟩

theorem jnumMax_cases (a b : JNum) (ha : a.isNaN = false) (hb : b.isNaN = false) :
    (jnumMax a b = a ∨ jnumMax a b = b) ∧
      jnumLe a (jnumMax a b) = true ∧ jnumLe b (jnumMax a b) = true ∧
      (jnumMax a b).isNaN = false := by
  unfold jnumMax
  rw [ha, hb]
  simp only [Bool.or_self, Bool.false_or, if_false]
  by_cases h : jnumLe a b = true
  · rw [if_pos h]
    exact ⟨Or.inr rfl, h, jnumLe_refl b, hb⟩
  · rw [if_neg h]
    have hba : jnumLe b a = true := by
      rcases Bool.or_eq_true_iff.mp (jnumLe_total a b) with h' | h'
      · exact absurd h' h
      · exact h'
    exact ⟨Or.inl rfl, jnumLe_refl a, hba, ha⟩

theorem foldl_jnumMin_spec (l : List JNum) :
    ∀ acc : JNum, acc.isNaN = false → (∀ v ∈ l, v.isNaN = false) →
      l.foldl jnumMin acc ∈ acc :: l ∧
        jnumLe (l.foldl jnumMin acc) acc = true ∧
        ∀ v ∈ l, jnumLe (l.foldl jnumMin acc) v = true := by
  induction l with
  | nil =>
    intro acc ha _
    exact ⟨List.mem_singleton.mpr rfl, jnumLe_refl acc, by simp⟩
  | cons b t ih =>
    intro acc ha hall
    have hb : b.isNaN = false := hall b (List.mem_cons_self b t)
    have ht : ∀ v ∈ t, v.isNaN = false := fun v hv => hall v (List.mem_cons_of_mem b hv)
    obtain ⟨hmo, hma, hmb, hmn⟩ := jnumMin_cases acc b ha hb
    obtain ⟨ih1, ih2, ih3⟩ := ih (jnumMin acc b) hmn ht
    rw [List.foldl_cons]
    refine ⟨?_, jnumLe_trans ih2 hma, ?_⟩
    · rcases List.mem_cons.mp ih1 with h | h
      · rw [h]
        rcases hmo with h' | h'
        · rw [h']; exact List.mem_cons_self acc (b :: t)
        · rw [h']
          exact List.mem_cons_of_mem acc (List.mem_cons_self b t)
      · exact List.mem_cons_of_mem acc (List.mem_cons_of_mem b h)
    · intro v hv
      rcases List.mem_cons.mp hv with h | h
      · rw [h]; exact jnumLe_trans ih2 hmb
      · exact ih3 v h

theorem foldl_jnumMax_spec (l : List JNum) :
    ∀ acc : JNum, acc.isNaN = false → (∀ v ∈ l, v.isNaN = false) →
      l.foldl jnumMax acc ∈ acc :: l ∧
        jnumLe acc (l.foldl jnumMax acc) = true ∧
        ∀ v ∈ l, jnumLe v (l.foldl jnumMax acc) = true := by
  induction l with
  | nil =>
    intro acc ha _
    exact ⟨List.mem_singleton.mpr rfl, jnumLe_refl acc, by simp⟩
  | cons b t ih =>
    intro acc ha hall
    have hb : b.isNaN = false := hall b (List.mem_cons_self b t)
    have ht : ∀ v ∈ t, v.isNaN = false := fun v hv => hall v (List.mem_cons_of_mem b hv)
    obtain ⟨hmo, hma, hmb, hmn⟩ := jnumMax_cases acc b ha hb
    obtain ⟨ih1, ih2, ih3⟩ := ih (jnumMax acc b) hmn ht
    rw [List.foldl_cons]
    refine ⟨?_, jnumLe_trans hma ih2, ?_⟩
    · rcases List.mem_cons.mp ih1 with h | h
      · rw [h]
        rcases hmo with h' | h'
        · rw [h']; exact List.mem_cons_self acc (b :: t)
        · rw [h']
          exact List.mem_cons_of_mem acc (List.mem_cons_self b t)
      · exact List.mem_cons_of_mem acc (List.mem_cons_of_mem b h)
    · intro v hv
      rcases List.mem_cons.mp hv with h | h
      · rw [h]; exact jnumLe_trans hmb ih2
      · exact ih3 v h

theorem colValues_not_nan (data : List Row) (column : String) :
    ∀ v ∈ colValues data column, v.isNaN = false := by
  intro v hv
  unfold colValues at hv
  rw [List.mem_filter] at hv
  simpa using hv.2

theorem listMin_spec (l : List JNum) (hne : l ≠ []) (hnn : ∀ v ∈ l, v.isNaN = false) :
    l.foldl jnumMin (JNum.inf true) ∈ l ∧
      ∀ v ∈ l, jnumLe (l.foldl jnumMin (JNum.inf true)) v = true := by
  obtain ⟨hmem, -, hle⟩ := foldl_jnumMin_spec l (JNum.inf true) rfl hnn
  refine ⟨?_, hle⟩
  rcases List.mem_cons.mp hmem with h | h
  · obtain ⟨v0, hv0⟩ := List.exists_mem_of_ne_nil l hne
    have hv0le := hle v0 hv0
    rw [h] at hv0le
    have hv0eq := jnumLe_infPos (hnn v0 hv0) hv0le
    rw [h, ← hv0eq]
    exact hv0
  · exact h

theorem listMax_spec (l : List JNum) (hne : l ≠ []) (hnn : ∀ v ∈ l, v.isNaN = false) :
    l.foldl jnumMax (JNum.inf false) ∈ l ∧
      ∀ v ∈ l, jnumLe v (l.foldl jnumMax (JNum.inf false)) = true := by
  obtain ⟨hmem, -, hle⟩ := foldl_jnumMax_spec l (JNum.inf false) rfl hnn
  refine ⟨?_, hle⟩
  rcases List.mem_cons.mp hmem with h | h
  · obtain ⟨v0, hv0⟩ := List.exists_mem_of_ne_nil l hne
    have hv0le := hle v0 hv0
    rw [h] at hv0le
    have hv0eq := jnumLe_infNeg (hnn v0 hv0) hv0le
    rw [h, ← hv0eq]
    exact hv0
  · exact h

theorem sortJNum_perm (l : List JNum) : (sortJNum l).Perm l :=
  List.mergeSort_perm l jnumLe

theorem sortJNum_sorted (l : List JNum) :
    List.Pairwise (fun a b => jnumLe a b = true) (sortJNum l) := by
  unfold sortJNum
  exact @List.sorted_mergeSort JNum jnumLe
    (fun _ _ _ h1 h2 => jnumLe_trans h1 h2) (fun a b => jnumLe_total a b) l

/-! ### Concrete datasets used to witness the theorems -/

/-- The worked example of the specification: three rows with an `age` column
(`"25"`, `"30"`, `"invalid"`) and a `comment` column (`"good"`, `""`,
`"great"`). -/
def exampleRows : List Row :=
  [[("age", JSValue.str "25"), ("comment", JSValue.str "good")],
   [("age", JSValue.str "30"), ("comment", JSValue.str "")],
   [("age", JSValue.str "invalid"), ("comment", JSValue.str "great")]]

/-- A single text column holding the values `"1"`, `"2"`, `"3"`. -/
def oddRows : List Row :=
  [[("v", JSValue.str "1")], [("v", JSValue.str "2")], [("v", JSValue.str "3")]]

/-- A single column holding the values `"1"`, `"2"`, `"3"`, `"4"`. -/
def evenRows : List Row :=
  [[("v", JSValue.str "1")], [("v", JSValue.str "2")], [("v", JSValue.str "3")],
   [("v", JSValue.str "4")]]

/-- A text column whose third value is the number `0`. -/
def truthyRows : List Row :=
  [[("c", JSValue.str "hello")], [("c", JSValue.str "world")], [("c", JSValue.num 0)]]

/-- Sixty rows of one text column, to exercise the 50-entry cap. -/
def bigRows : List Row :=
  List.replicate 60 [("c", JSValue.str "x")]

/-- Evaluation of the prefix parser on a plain unsigned integer numeral: the
raw parse result reduces to the canonical shape on the left, which
simplifies to the integer itself. -/
theorem parseFloat_intStr (s : String) (n : ℕ)
    (h : parseFloatV (JSValue.str s) =
      JNum.fin ((((n : ℕ) : ℚ) + ((0 : ℕ) : ℚ) / (10 : ℚ) ^ (0 : ℕ)) * (10 : ℚ) ^ (0 : ℕ))) :
    parseFloatV (JSValue.str s) = JNum.fin n := by
  rw [h]
  norm_num

theorem colValues_example_age :
    colValues exampleRows "age" = [JNum.fin 25, JNum.fin 30] := by
  have h : colValues exampleRows "age" =
      [parseFloatV (JSValue.str "25"), parseFloatV (JSValue.str "30")] := rfl
  rw [h, parseFloat_intStr "25" 25 rfl, parseFloat_intStr "30" 30 rfl]
  norm_num

theorem colValues_oddRows :
    colValues oddRows "v" = [JNum.fin 1, JNum.fin 2, JNum.fin 3] := by
  have h : colValues oddRows "v" =
      [parseFloatV (JSValue.str "1"), parseFloatV (JSValue.str "2"),
       parseFloatV (JSValue.str "3")] := rfl
  rw [h, parseFloat_intStr "1" 1 rfl, parseFloat_intStr "2" 2 rfl,
    parseFloat_intStr "3" 3 rfl]
  norm_num

theorem colValues_evenRows :
    colValues evenRows "v" = [JNum.fin 1, JNum.fin 2, JNum.fin 3, JNum.fin 4] := by
  have h : colValues evenRows "v" =
      [parseFloatV (JSValue.str "1"), parseFloatV (JSValue.str "2"),
       parseFloatV (JSValue.str "3"), parseFloatV (JSValue.str "4")] := rfl
  rw [h, parseFloat_intStr "1" 1 rfl, parseFloat_intStr "2" 2 rfl,
    parseFloat_intStr "3" 3 rfl, parseFloat_intStr "4" 4 rfl]
  norm_num

theorem mkStats_example_age :
    mkStats [JNum.fin 25, JNum.fin 30] =
      ⟨2, JNum.fin 55, JNum.fin (55 / 2), JNum.fin 25, JNum.fin 30, JNum.fin (55 / 2)⟩ := by
  have hs : sortJNum [JNum.fin 25, JNum.fin 30] = [JNum.fin 25, JNum.fin 30] :=
    List.mergeSort_of_sorted (by norm_num [jnumLe])
  simp only [mkStats, hs]
  norm_num [jnumAdd, jnumMin, jnumMax, jnumDivNat, jnumLe, JNum.isNaN, List.getD]

theorem mkStats_median_odd :
    (mkStats [JNum.fin 1, JNum.fin 2, JNum.fin 3]).median = JNum.fin 2 := by
  have hs : sortJNum [JNum.fin 1, JNum.fin 2, JNum.fin 3] =
      [JNum.fin 1, JNum.fin 2, JNum.fin 3] :=
    List.mergeSort_of_sorted (by norm_num [jnumLe])
  simp only [mkStats, hs]
  norm_num [List.getD]

theorem mkStats_median_even :
    (mkStats [JNum.fin 1, JNum.fin 2, JNum.fin 3, JNum.fin 4]).median =
      JNum.fin (5 / 2) := by
  have hs : sortJNum [JNum.fin 1, JNum.fin 2, JNum.fin 3, JNum.fin 4] =
      [JNum.fin 1, JNum.fin 2, JNum.fin 3, JNum.fin 4] :=
    List.mergeSort_of_sorted (by norm_num [jnumLe])
  simp only [mkStats, hs]
  norm_num [jnumAdd, jnumDivNat, List.getD]

/-! ### The claims -/

/-- C1 (counterexample): the claim says that a present, non-empty value is
counted as numeric-like evidence iff its string form has a valid leading
numeric prefix parsing to a finite float, and in particular that `"12abc"`
counts. In the code the second conjunct of the test is the global
`isFinite`, which coerces the whole string with `Number(_)`: `"12abc"` is
present, its leading prefix parses to the finite value 12, yet the
classifier does not count it (`numericCount` stays 0). -/
theorem c1_numeric_like_counterexample :
    isPresent (JSValue.str "12abc") = true ∧
    (parseFloatV (JSValue.str "12abc")).isFinite = true ∧
    numericLike (JSValue.str "12abc") = false ∧
    classifyCounts [[("id", JSValue.str "12abc")]] "id" = (1, 0) := by
  decide

/-- C1 (amended): for every present sampled value, the classifier counts it
as numeric-like evidence iff its leading-prefix float parse does not yield
NaN AND its full-value `Number(_)` coercion is finite; hence a numeric
prefix followed by trailing garbage (such as `"12abc"`) does NOT count. -/
theorem c1_numeric_like_amended (data : List Row) (key : String) :
    (classifyCounts data key).2 =
      ((sampleWindow data).map (fun row => getVal row key)).countP
        (fun v => isPresent v && (!(parseFloatV v).isNaN && (toNumberV v).isFinite)) := by
  rw [classifyCounts_spec]
  rfl

/-- C2: a column is classified Numeric iff, over the first
`min(rowCount, 100)` rows, the number of present values is positive and the
numeric-like ones among them are at least half; otherwise (including when no
sampled value is present) it is a Text column. -/
theorem c2_classifier_rule (data : List Row) (key : String) :
    (key ∈ numericColumnsOf data ↔
      key ∈ allKeysOf data ∧ 0 < specTotalValid data key ∧
        (1 : ℚ) / 2 ≤ (specNumericCount data key : ℚ) / (specTotalValid data key : ℚ)) ∧
    (key ∈ textColumnsOf data ↔
      key ∈ allKeysOf data ∧
        ¬(0 < specTotalValid data key ∧
          (1 : ℚ) / 2 ≤ (specNumericCount data key : ℚ) / (specTotalValid data key : ℚ))) := by
  have h1 : (classifyCounts data key).1 = specTotalValid data key := by
    rw [classifyCounts_spec]
  have h2 : (classifyCounts data key).2 = specNumericCount data key := by
    rw [classifyCounts_spec]
  constructor
  · rw [mem_numericColumnsOf_iff, h1, h2]
    constructor
    · rintro ⟨hk, htv, hr⟩
      exact ⟨hk, htv, (ratio_ge_half_iff _ _ htv).mpr hr⟩
    · rintro ⟨hk, htv, hr⟩
      exact ⟨hk, htv, (ratio_ge_half_iff _ _ htv).mp hr⟩
  · rw [mem_textColumnsOf_iff, h1, h2]
    constructor
    · rintro ⟨hk, hn⟩
      exact ⟨hk, fun hc => hn ⟨hc.1, (ratio_ge_half_iff _ _ hc.1).mp hc.2⟩⟩
    · rintro ⟨hk, hn⟩
      exact ⟨hk, fun hc => hn ⟨hc.1, (ratio_ge_half_iff _ _ hc.1).mpr hc.2⟩⟩

/-- C2 (witness): the classification rule instantiated on the worked
example's `age` column. -/
theorem c2_classifier_rule_witness :
    ("age" ∈ numericColumnsOf exampleRows ↔
      "age" ∈ allKeysOf exampleRows ∧ 0 < specTotalValid exampleRows "age" ∧
        (1 : ℚ) / 2 ≤
          (specNumericCount exampleRows "age" : ℚ) / (specTotalValid exampleRows "age" : ℚ)) ∧
    ("age" ∈ textColumnsOf exampleRows ↔
      "age" ∈ allKeysOf exampleRows ∧
        ¬(0 < specTotalValid exampleRows "age" ∧
          (1 : ℚ) / 2 ≤
            (specNumericCount exampleRows "age" : ℚ) / (specTotalValid exampleRows "age" : ℚ))) :=
  c2_classifier_rule exampleRows "age"

/-- C3: the numeric and text column lists are disjoint, together they cover
exactly the first row's keys, and each preserves first-row key order (both
are sublists of the key list, and their concatenation is a permutation of
it). -/
theorem c3_partition (data : List Row) :
    List.Disjoint (numericColumnsOf data) (textColumnsOf data) ∧
    (∀ key, (key ∈ numericColumnsOf data ∨ key ∈ textColumnsOf data) ↔
      key ∈ allKeysOf data) ∧
    (numericColumnsOf data).Sublist (allKeysOf data) ∧
    (textColumnsOf data).Sublist (allKeysOf data) ∧
    (numericColumnsOf data ++ textColumnsOf data).Perm (allKeysOf data) := by
  refine ⟨?_, ?_, List.filter_sublist _, List.filter_sublist _, ?_⟩
  · intro key h1 h2
    rw [mem_numericColumnsOf_iff] at h1
    rw [mem_textColumnsOf_iff] at h2
    exact h2.2 h1.2
  · intro key
    rw [mem_numericColumnsOf_iff, mem_textColumnsOf_iff]
    constructor
    · rintro (⟨h, -⟩ | ⟨h, -⟩) <;> exact h
    · intro h
      by_cases hc : 0 < (classifyCounts data key).1 ∧
          (classifyCounts data key).1 ≤ 2 * (classifyCounts data key).2
      · exact Or.inl ⟨h, hc⟩
      · exact Or.inr ⟨h, hc⟩
  · have he : textColumnsOf data =
        (allKeysOf data).filter (fun key => !(isNumericColumn data key)) := by
      unfold textColumnsOf
      apply List.filter_congr
      intro x hx
      have hcx : (numericColumnsOf data).contains x = isNumericColumn data x := by
        by_cases hn : isNumericColumn data x = true
        · rw [hn]
          exact List.elem_iff.mpr (List.mem_filter.mpr ⟨hx, hn⟩)
        · have hc1 : (numericColumnsOf data).contains x = false :=
            Bool.eq_false_iff.mpr
              (fun hc => hn ((List.mem_filter.mp (List.elem_iff.mp hc)).2))
          have hc2 : isNumericColumn data x = false := Bool.eq_false_iff.mpr hn
          rw [hc1, hc2]
      rw [hcx]
    rw [he]
    exact List.filter_append_perm (isNumericColumn data) (allKeysOf data)

/-- C3 (witness): the partition facts on the worked example, with the
coverage property instantiated at the `age` key. -/
theorem c3_partition_witness :
    List.Disjoint (numericColumnsOf exampleRows) (textColumnsOf exampleRows) ∧
    (("age" ∈ numericColumnsOf exampleRows ∨ "age" ∈ textColumnsOf exampleRows) ↔
      "age" ∈ allKeysOf exampleRows) ∧
    (numericColumnsOf exampleRows).Sublist (allKeysOf exampleRows) ∧
    (textColumnsOf exampleRows).Sublist (allKeysOf exampleRows) ∧
    (numericColumnsOf exampleRows ++ textColumnsOf exampleRows).Perm (allKeysOf exampleRows) :=
  ⟨(c3_partition exampleRows).1, (c3_partition exampleRows).2.1 "age",
    (c3_partition exampleRows).2.2.1, (c3_partition exampleRows).2.2.2.1,
    (c3_partition exampleRows).2.2.2.2⟩

/-- C4: for a Numeric-classified column whose value list (every row's value
put through the leading-prefix float conversion, rows with failed
conversions discarded) is non-empty, the quantitative entry reports
`count` = list length, `sum` = the arithmetic sum, `average` = sum/count,
and `min`/`max` = a least/greatest element of the list. -/
theorem c4_numeric_stats (data : List Row) (column : String)
    (hmem : column ∈ numericColumnsOf data)
    (hne : colValues data column ≠ []) :
    ∃ s, List.lookup column (quantitativeOf data) = some s ∧
      s.count = (colValues data column).length ∧
      s.sum = (colValues data column).foldl jnumAdd (JNum.fin 0) ∧
      s.average = jnumDivNat s.sum s.count ∧
      s.min ∈ colValues data column ∧
      (∀ v ∈ colValues data column, jnumLe s.min v = true) ∧
      s.max ∈ colValues data column ∧
      (∀ v ∈ colValues data column, jnumLe v s.max = true) := by
  have hp : 0 < (colValues data column).length := List.length_pos.mpr hne
  obtain ⟨hmin_mem, hmin_le⟩ :=
    listMin_spec (colValues data column) hne (colValues_not_nan data column)
  obtain ⟨hmax_mem, hmax_le⟩ :=
    listMax_spec (colValues data column) hne (colValues_not_nan data column)
  exact ⟨mkStats (colValues data column), lookup_quantitativeOf data column hmem hp,
    rfl, rfl, rfl, hmin_mem, hmin_le, hmax_mem, hmax_le⟩

/-- C4 (witness): on the worked example, the `age` statistics exist with the
stated properties, and evaluate to
`{count: 2, sum: 55, average: 27.5, min: 25, max: 30, median: 27.5}`. -/
theorem c4_numeric_stats_witness :
    (∃ s, List.lookup "age" (quantitativeOf exampleRows) = some s ∧
      s.count = (colValues exampleRows "age").length ∧
      s.sum = (colValues exampleRows "age").foldl jnumAdd (JNum.fin 0) ∧
      s.average = jnumDivNat s.sum s.count ∧
      s.min ∈ colValues exampleRows "age" ∧
      (∀ v ∈ colValues exampleRows "age", jnumLe s.min v = true) ∧
      s.max ∈ colValues exampleRows "age" ∧
      (∀ v ∈ colValues exampleRows "age", jnumLe v s.max = true)) ∧
    List.lookup "age" (quantitativeOf exampleRows) =
      some ⟨2, JNum.fin 55, JNum.fin (55 / 2), JNum.fin 25, JNum.fin 30,
        JNum.fin (55 / 2)⟩ := by
  constructor
  · exact c4_numeric_stats exampleRows "age"
      ((mem_numericColumnsOf_iff exampleRows "age").mpr (by decide)) (by decide)
  · rw [lookup_quantitativeOf exampleRows "age"
      ((mem_numericColumnsOf_iff exampleRows "age").mpr (by decide)) (by decide)]
    rw [colValues_example_age, mkStats_example_age]

/-- C5: the reported median of a column's parsed values is the middle
element of an ascending sorted arrangement when the count is odd, and the
mean of the two middle elements (0-based indices `count/2 - 1` and
`count/2`) when the count is even. -/
theorem c5_median_rule (data : List Row) (column : String) (s : NumericStats)
    (h : List.lookup column (quantitativeOf data) = some s) :
    ∃ S : List JNum, S.Perm (colValues data column) ∧
      List.Pairwise (fun a b => jnumLe a b = true) S ∧ 0 < S.length ∧
      s.median = (if S.length % 2 = 0 then
          jnumDivNat (jnumAdd (S.getD (S.length / 2 - 1) JNum.nan)
            (S.getD (S.length / 2) JNum.nan)) 2
        else S.getD (S.length / 2) JNum.nan) := by
  obtain ⟨hs, hlen⟩ := lookup_quant_some data column s h
  refine ⟨sortJNum (colValues data column), sortJNum_perm _, sortJNum_sorted _, ?_, ?_⟩
  · rw [(sortJNum_perm (colValues data column)).length_eq]
    exact hlen
  · rw [hs]
    rfl

/-- C5 (witness): the median rule instantiated on a three-value column, plus
the concrete evaluations `median([1,2,3]) = 2` and
`median([1,2,3,4]) = 2.5`. -/
theorem c5_median_rule_witness :
    (∃ S : List JNum, S.Perm (colValues oddRows "v") ∧
      List.Pairwise (fun a b => jnumLe a b = true) S ∧ 0 < S.length ∧
      (mkStats (colValues oddRows "v")).median = (if S.length % 2 = 0 then
          jnumDivNat (jnumAdd (S.getD (S.length / 2 - 1) JNum.nan)
            (S.getD (S.length / 2) JNum.nan)) 2
        else S.getD (S.length / 2) JNum.nan)) ∧
    (List.lookup "v" (quantitativeOf oddRows)).map NumericStats.median =
      some (JNum.fin 2) ∧
    (List.lookup "v" (quantitativeOf evenRows)).map NumericStats.median =
      some (JNum.fin (5 / 2)) := by
  refine ⟨c5_median_rule oddRows "v" (mkStats (colValues oddRows "v"))
      (lookup_quantitativeOf oddRows "v"
        ((mem_numericColumnsOf_iff oddRows "v").mpr (by decide)) (by decide)),
    ?_, ?_⟩
  · rw [lookup_quantitativeOf oddRows "v"
      ((mem_numericColumnsOf_iff oddRows "v").mpr (by decide)) (by decide)]
    rw [colValues_oddRows]
    show some (mkStats [JNum.fin 1, JNum.fin 2, JNum.fin 3]).median = _
    rw [mkStats_median_odd]
  · rw [lookup_quantitativeOf evenRows "v"
      ((mem_numericColumnsOf_iff evenRows "v").mpr (by decide)) (by decide)]
    rw [colValues_evenRows]
    show some (mkStats [JNum.fin 1, JNum.fin 2, JNum.fin 3, JNum.fin 4]).median = _
    rw [mkStats_median_even]

/-- C6: for a Text column, `totalEntries` is the full row count,
`nonEmptyEntries` is the surviving-value count truncated at 50 (the capped
working set's length, not the true count), and `sampleComments` is exactly
the first `min(10, nonEmptyEntries)` surviving values in row order. -/
theorem c6_qualitative_summary (data : List Row) (column : String)
    (hmem : column ∈ textColumnsOf data) :
    ∃ q, List.lookup column (qualitativeOf data) = some q ∧
      q.totalEntries = data.length ∧
      q.nonEmptyEntries = min 50 (qualSurvivors data column).length ∧
      q.sampleComments = (qualSurvivors data column).take 10 ∧
      q.sampleComments.length = min 10 q.nonEmptyEntries := by
  refine ⟨mkQual data column, lookup_qualitativeOf data column hmem, rfl, ?_, ?_, ?_⟩
  · show ((qualSurvivors data column).take 50).length = _
    rw [List.length_take]
  · show (((qualSurvivors data column).take 50).take 10) = _
    rw [List.take_take]
    norm_num
  · show ((((qualSurvivors data column).take 50).take 10)).length =
      min 10 ((qualSurvivors data column).take 50).length
    rw [List.take_take, List.length_take, List.length_take]
    omega

/-- C6 (witness): on the worked example the `comment` summary is
`{totalEntries: 3, nonEmptyEntries: 2, sampleComments: ["good", "great"]}`;
on a 60-row text column the cap yields `nonEmptyEntries = 50` and ten
sample values. -/
theorem c6_qualitative_summary_witness :
    (∃ q, List.lookup "comment" (qualitativeOf exampleRows) = some q ∧
      q.totalEntries = exampleRows.length ∧
      q.nonEmptyEntries = min 50 (qualSurvivors exampleRows "comment").length ∧
      q.sampleComments = (qualSurvivors exampleRows "comment").take 10 ∧
      q.sampleComments.length = min 10 q.nonEmptyEntries) ∧
    List.lookup "comment" (qualitativeOf exampleRows) =
      some ⟨3, 2, [JSValue.str "good", JSValue.str "great"]⟩ ∧
    List.lookup "c" (qualitativeOf bigRows) =
      some ⟨60, 50, List.replicate 10 (JSValue.str "x")⟩ := by
  refine ⟨c6_qualitative_summary exampleRows "comment"
      ((mem_textColumnsOf_iff exampleRows "comment").mpr (by decide)), ?_, ?_⟩
  · rw [lookup_qualitativeOf exampleRows "comment"
      ((mem_textColumnsOf_iff exampleRows "comment").mpr (by decide))]
    decide
  · rw [lookup_qualitativeOf bigRows "c"
      ((mem_textColumnsOf_iff bigRows "c").mpr (by decide))]
    decide

/-- C7 (counterexample): the claim says a value survives the qualitative
filter iff it is present with a non-empty trimmed string form, so that the
number `0` (string form `"0"`) survives. In the code the filter is
`comment && String(comment).trim().length > 0`, and the leading truthiness
test rejects the number `0`: on a text column holding `"hello"`, `"world"`,
`0`, the summary counts only 2 surviving entries and samples only the two
strings. -/
theorem c7_qual_filter_counterexample :
    isPresent (JSValue.num 0) = true ∧
    trimmedNonEmpty (JSValue.num 0) = true ∧
    survivesQualFilter (JSValue.num 0) = false ∧
    List.lookup "c" (qualitativeOf truthyRows) =
      some ⟨3, 2, [JSValue.str "hello", JSValue.str "world"]⟩ := by
  refine ⟨by decide, by decide, by decide, ?_⟩
  rw [lookup_qualitativeOf truthyRows "c"
    ((mem_textColumnsOf_iff truthyRows "c").mpr (by decide))]
  decide

/-- C7 (amended): a row's value survives the Qualitative Sampler's filter
iff it is truthy and its string form is non-empty after trimming; over the
input contract's value types this means: a string that trims to something
non-empty, or a number other than `0`. Missing values, `null`, the empty
string, and the number `0` (falsy despite its non-empty string form `"0"`)
do not survive. -/
theorem c7_qual_filter_amended (v : JSValue) :
    survivesQualFilter v = true ↔
      ((∃ s, v = JSValue.str s ∧ jsTrimChars s.data ≠ []) ∨
       (∃ q, v = JSValue.num q ∧ q ≠ 0)) := by
  cases v with
  | str s =>
    unfold survivesQualFilter jsTruthy trimmedNonEmpty
    simp only [Bool.and_eq_true, Bool.not_eq_true', beq_eq_false_iff_ne,
      decide_eq_true_eq]
    constructor
    · rintro ⟨-, h2⟩
      exact Or.inl ⟨s, rfl, List.ne_nil_of_length_pos h2⟩
    · rintro (⟨t, ht, h⟩ | ⟨q, hq, -⟩)
      · injection ht with ht'
        subst ht'
        refine ⟨?_, List.length_pos.mpr h⟩
        intro he
        subst he
        exact h rfl
      · cases hq
  | num q =>
    unfold survivesQualFilter jsTruthy trimmedNonEmpty
    simp only [Bool.and_true, Bool.not_eq_true', beq_eq_false_iff_ne]
    constructor
    · intro h
      exact Or.inr ⟨q, rfl, h⟩
    · rintro (⟨s, hs, -⟩ | ⟨q', hq, h⟩)
      · cases hs
      · injection hq with hq'
        subst hq'
        exact h
  | null => simp [survivesQualFilter, jsTruthy]
  | undef => simp [survivesQualFilter, jsTruthy]

/-- C8: the analysis returns exactly the error object
`{ error: "No data to analyze" }` iff the dataset is empty; for a non-empty
dataset it returns the quantitative, qualitative, and metadata fields with
no error. -/
theorem c8_empty_dataset (data : List Row) :
    (analyzeSurveyData data = AnalysisResult.err "No data to analyze" ↔ data = []) ∧
    (data ≠ [] → analyzeSurveyData data =
      AnalysisResult.ok (quantitativeOf data) (qualitativeOf data) (metadataOf data)) := by
  by_cases h : data = []
  · subst h
    exact ⟨⟨fun _ => rfl, fun _ => rfl⟩, fun hc => absurd rfl hc⟩
  · have hne : ¬ data.isEmpty = true := by
      simpa using h
    refine ⟨?_, fun _ => ?_⟩
    · unfold analyzeSurveyData
      rw [if_neg hne]
      exact ⟨fun hc => AnalysisResult.noConfusion hc, fun hc => absurd hc h⟩
    · unfold analyzeSurveyData
      rw [if_neg hne]

/-- C8 (witness): the empty dataset yields exactly the error object, and the
worked example yields the assembled result. -/
theorem c8_empty_dataset_witness :
    analyzeSurveyData ([] : List Row) = AnalysisResult.err "No data to analyze" ∧
    analyzeSurveyData exampleRows =
      AnalysisResult.ok (quantitativeOf exampleRows) (qualitativeOf exampleRows)
        (metadataOf exampleRows) :=
  ⟨(c8_empty_dataset []).1.mpr rfl, (c8_empty_dataset exampleRows).2 (by decide)⟩

/-- C9: a column whose leading-prefix conversion fails on every row of the
full dataset has no entry in the quantitative mapping, while the metadata's
numeric-column list is exactly the classifier's output, unaffected by the
omission. -/
theorem c9_zero_parseable_omitted (data : List Row) (column : String)
    (h : colValues data column = []) :
    List.lookup column (quantitativeOf data) = none ∧
    (metadataOf data).numericColumns = numericColumnsOf data := by
  refine ⟨?_, rfl⟩
  unfold quantitativeOf
  exact lookup_quant_aux_none data column (by rw [h]; simp) (numericColumnsOf data)

/-- C9 (witness): the worked example's `comment` column has no parseable
value, and has no quantitative entry. -/
theorem c9_zero_parseable_omitted_witness :
    colValues exampleRows "comment" = [] ∧
    List.lookup "comment" (quantitativeOf exampleRows) = none ∧
    (metadataOf exampleRows).numericColumns = numericColumnsOf exampleRows :=
  ⟨by decide, (c9_zero_parseable_omitted exampleRows "comment" (by decide)).1,
    (c9_zero_parseable_omitted exampleRows "comment" (by decide)).2⟩

/-- C10: every Numeric-classified column has an entry in the quantitative
mapping: Numeric classification requires a sampled value passing the
numeric test, the sample window is a subset of the dataset, and any value
passing that test also passes the statistics engine's parse filter, so the
engine's value list is never empty and the omission branch is
unreachable. -/
theorem c10_numeric_has_stats (data : List Row) (column : String)
    (hmem : column ∈ numericColumnsOf data) :
    ∃ s, List.lookup column (quantitativeOf data) = some s := by
  obtain ⟨hk, htv, hratio⟩ := (mem_numericColumnsOf_iff data column).mp hmem
  have hnc : 0 < (classifyCounts data column).2 := by omega
  rw [classifyCounts_spec] at hnc
  have hnc' : 0 < specNumericCount data column := hnc
  unfold specNumericCount at hnc'
  obtain ⟨v, hvmem, hvp⟩ := List.countP_pos_iff.mp hnc'
  have hnl : numericLike v = true := by
    simp only [Bool.and_eq_true] at hvp
    exact hvp.2
  have hnn : (parseFloatV v).isNaN = false := by
    unfold numericLike at hnl
    simp only [Bool.and_eq_true, Bool.not_eq_true'] at hnl
    exact hnl.1
  obtain ⟨row, hrow, hveq⟩ := List.mem_map.mp hvmem
  have hrow2 : row ∈ data := by
    unfold sampleWindow at hrow
    exact List.take_subset _ _ hrow
  have hin : parseFloatV v ∈ colValues data column := by
    unfold colValues
    rw [List.mem_filter]
    exact ⟨List.mem_map.mpr ⟨row, hrow2, by rw [hveq]⟩, by simp [hnn]⟩
  have hlen : 0 < (colValues data column).length :=
    List.length_pos.mpr (List.ne_nil_of_mem hin)
  exact ⟨mkStats (colValues data column), lookup_quantitativeOf data column hmem hlen⟩

/-- C10 (witness): the worked example's Numeric `age` column has a
quantitative entry. -/
theorem c10_numeric_has_stats_witness :
    ∃ s, List.lookup "age" (quantitativeOf exampleRows) = some s :=
  c10_numeric_has_stats exampleRows "age"
    ((mem_numericColumnsOf_iff exampleRows "age").mpr (by decide))
